import Mathlib

/-!
Verification of the calendar-insights ingestion pipeline
(`app-gcp/dynamic_fetch.py`, `app-gcp/calendar_service.py`,
`app-gcp/database.py`), shallowly embedded in Lean.

Timestamps are modelled as integer seconds since an epoch; raw ISO
strings are modelled by `TimeStr`, whose `bad` constructor stands for a
string `datetime.fromisoformat` rejects.  The relational store is a list
of rows (the serial `id` and `created_at` columns are never consulted by
the pipeline logic and are omitted).
-/

/-- A raw timestamp string as found in a Google event's `start`/`end`
payload: `ok secs` parses to `secs` seconds since the epoch, `bad` fails
to parse (`datetime.fromisoformat` raises). -/
inductive TimeStr
  | ok (secs : Int)
  | bad
deriving Repr, DecidableEq

/-- Model of `datetime.fromisoformat(s.replace('Z', '+00:00'))`, returning
`none` when the call raises. -/
def parseIso : TimeStr → Option Int
  | .ok secs => some secs
  | .bad => none

/-- One entry of `conferenceData.entryPoints` in a raw event. -/
structure EntryPoint where
  entryPointType : String
  uri : String
deriving Repr, DecidableEq

/-- One entry of `attendees` in a raw event; `none` models a missing
dictionary key. -/
structure Attendee where
  email : Option String
  responseStatus : Option String
deriving Repr, DecidableEq

/-- A raw Google Calendar event as consumed by
`GoogleCalendarService.fetch_calendar_data`; `none` models a missing or
empty field. -/
structure RawEvent where
  id : String
  summary : Option String
  start_raw : Option TimeStr
  end_raw : Option TimeStr
  organizer_email : Option String
  attendees : List Attendee
  hangoutLink : Option String
  conference_entry_points : List EntryPoint
  htmlLink : Option String
deriving Repr, DecidableEq

/-- A normalized meeting record, the dictionary built at
`calendar_service.py:292-317` and simultaneously the shape of a row of
the `meetings` table (`database.py:141-168`). -/
structure MeetingRecord where
  event_id : String
  calendar_id : String
  user_email : String
  department : String
  division : String
  subdepartment : String
  is_manager : Bool
  start_time : Int
  end_time : Int
  duration_minutes : Int
  attendees_count : Nat
  attendees_accepted : Nat
  attendees_declined : Nat
  attendees_tentative : Nat
  attendees_needs_action : Nat
  attendees_accepted_emails : String
  summary : String
  meet_link : String
  html_link : String
  is_one_on_one : Bool
  has_manager_attendee : Bool
  unique_departments : Nat
  departments_list : String
deriving Repr, DecidableEq

/-- The attendee-status loop of `calendar_service.py:260-277`: four
counters plus the list of accepted attendees' emails (missing email
recorded as `""`, matching `attendee.get('email', '')`).  A missing
`responseStatus` defaults to `'needsAction'`
(`attendee.get('responseStatus', 'needsAction')`); a present value
outside the four literals falls through every branch of the chain. -/
def countStatuses : List Attendee → Nat × Nat × Nat × Nat × List String
  | [] => (0, 0, 0, 0, [])
  | a :: rest =>
    let (acc, dec, ten, na, ems) := countStatuses rest
    let rs := a.responseStatus.getD "needsAction"
    if rs = "accepted" then (acc + 1, dec, ten, na, a.email.getD "" :: ems)
    else if rs = "declined" then (acc, dec + 1, ten, na, ems)
    else if rs = "tentative" then (acc, dec, ten + 1, na, ems)
    else if rs = "needsAction" then (acc, dec, ten, na + 1, ems)
    else (acc, dec, ten, na, ems)

/-- Scan of `conferenceData.entryPoints` for the first video entry
(`calendar_service.py:285-289`). -/
def firstVideoUri : List EntryPoint → String
  | [] => ""
  | p :: rest => if p.entryPointType = "video" then p.uri else firstVideoUri rest

/-- The `meet_link` extraction (`calendar_service.py:282-289`): the
`hangoutLink` field if non-empty, else the first video entry point. -/
def meetLink (e : RawEvent) : String :=
  let ml := e.hangoutLink.getD ""
  if ml = "" then firstVideoUri e.conference_entry_points else ml

/-- The duration computation of `calendar_service.py:251`:
`int((end_dt - start_dt).total_seconds() / 60)` — Python's `int()` on a
float truncates toward zero, which on exact arithmetic is `Int.div`. -/
def compute_duration (start_secs end_secs : Int) : Int :=
  Int.tdiv (end_secs - start_secs) 60

/-- The spec's formula for the same quantity, §8: `duration_minutes ==
round((end_time - start_time) in minutes)`, with mathematical rounding
to the nearest integer. -/
def duration_minutes_specRound (start_secs end_secs : Int) : Int :=
  round ((((end_secs - start_secs : Int) : ℚ)) / 60)

/-- The per-event body of the `for event in events` loop of
`fetch_calendar_data` (`calendar_service.py:232-318`): `none` means the
loop `continue`s (missing start/end at line 243, or a parse failure at
line 252); otherwise the database-compatible record is built. -/
def normalizeEvent (e : RawEvent) : Option MeetingRecord :=
  match e.start_raw, e.end_raw with
  | some st, some en =>
    match parseIso st, parseIso en with
    | some sd, some ed =>
      let organizer := e.organizer_email.getD "unknown@domain.com"
      let (acc, dec, ten, na, ems) := countStatuses e.attendees
      let cnt := e.attendees.length
      some
        { event_id := e.id
          calendar_id := "primary"
          user_email := organizer
          department := "Unknown"
          division := "Unknown"
          subdepartment := "Unknown"
          is_manager := false
          start_time := sd
          end_time := ed
          duration_minutes := compute_duration sd ed
          attendees_count := cnt
          attendees_accepted := acc
          attendees_declined := dec
          attendees_tentative := ten
          attendees_needs_action := na
          attendees_accepted_emails := String.intercalate "," ems
          summary := e.summary.getD "No Title"
          meet_link := meetLink e
          html_link := e.htmlLink.getD ""
          is_one_on_one := cnt = 2
          has_manager_attendee := false
          unique_departments := 1
          departments_list := "Unknown" }
    | _, _ => none
  | _, _ => none

/-- Model of `GoogleCalendarService.fetch_calendar_data` restricted to its
normalization of an already-retrieved event list
(`calendar_service.py:231-321`): every event is processed, records that
fail time extraction or parsing are dropped. -/
def fetch_calendar_data (events : List RawEvent) : List MeetingRecord :=
  events.filterMap normalizeEvent

/-!  The upsert store (`dynamic_fetch.py:116-232`). -/

/-- A row of the `meetings` table; the serial `id` / `created_at`
columns are never read by the pipeline and are omitted. -/
abbrev Row := MeetingRecord

/-- The `meetings` table as an ordered list of rows. -/
abbrev DB := List Row

/-- Model of `SELECT id FROM meetings WHERE event_id = %s` followed by the
row-found test (`dynamic_fetch.py:136-139`). -/
def rowIdPresent (db : DB) (eid : String) : Bool :=
  db.any (fun r => r.event_id = eid)

/-- The `UPDATE meetings SET ... WHERE event_id = %s` field list
(`dynamic_fetch.py:141-155`): only the mutable fields are overwritten. -/
def applyUpdate (r : Row) (m : MeetingRecord) : Row :=
  { r with
    summary := m.summary
    start_time := m.start_time
    end_time := m.end_time
    duration_minutes := m.duration_minutes
    attendees_count := m.attendees_count
    attendees_accepted := m.attendees_accepted
    attendees_declined := m.attendees_declined
    attendees_tentative := m.attendees_tentative
    attendees_needs_action := m.attendees_needs_action
    meet_link := m.meet_link
    html_link := m.html_link }

/-- Effect of the `UPDATE ... WHERE event_id = %s` statement on the
table: every row whose `event_id` matches is overwritten. -/
def updateByEventId (db : DB) (m : MeetingRecord) : DB :=
  db.map (fun r => if r.event_id = m.event_id then applyUpdate r m else r)

/-- Model of `INSERT INTO meetings ... ON CONFLICT (event_id) DO NOTHING`
(`dynamic_fetch.py:160-182`): the `Bool` is `cursor.rowcount > 0`. -/
def insertOnConflictDoNothing (db : DB) (m : MeetingRecord) : DB × Bool :=
  if rowIdPresent db m.event_id then (db, false) else (db ++ [m], true)

/-- Outcome of `store_meetings_data`: final table plus the three
counters printed in the summary (`dynamic_fetch.py:126-128, 202-207`). -/
structure StoreResult where
  db : DB
  inserted : Nat
  updated : Nat
  skipped : Nat
deriving Repr, DecidableEq

/-- The `for i, meeting in enumerate(meetings_data)` loop
(`dynamic_fetch.py:132-197`).  `fails i` says the per-record `try` body
for record `i` raises before any write lands (key error, statement
error); the handler at lines 193-197 then counts the record as skipped
and leaves the table untouched.  In incremental mode
(`clear_existing = false`) an existing `event_id` takes the update path
(lines 135-157); otherwise the insert-on-conflict path runs. -/
def storeLoop (clear_existing : Bool) (fails : Nat → Bool) :
    Nat → StoreResult → List MeetingRecord → StoreResult
  | _, st, [] => st
  | i, st, m :: rest =>
    let st' :=
      if fails i then { st with skipped := st.skipped + 1 }
      else if !clear_existing && rowIdPresent st.db m.event_id then
        { st with db := updateByEventId st.db m, updated := st.updated + 1 }
      else
        match insertOnConflictDoNothing st.db m with
        | (db', true) => { st with db := db', inserted := st.inserted + 1 }
        | (db', false) => { st with db := db', skipped := st.skipped + 1 }
    storeLoop clear_existing fails (i + 1) st' rest

/-- Oracle for a run where no per-record exception occurs. -/
def noFail : Nat → Bool := fun _ => false

/-- Model of `store_meetings_data(meetings_data, clear_existing, ...)`
(`dynamic_fetch.py:116-232`): in historical mode the table is first
cleared (`DELETE FROM meetings`, line 123), then every record is
processed by the loop.  The Python function returns `True` unless the
connection itself fails, which is outside this model. -/
def store_meetings_data (meetings_data : List MeetingRecord)
    (clear_existing : Bool) (fails : Nat → Bool) (db : DB) : StoreResult :=
  let db0 := if clear_existing then [] else db
  storeLoop clear_existing fails 0
    { db := db0, inserted := 0, updated := 0, skipped := 0 } meetings_data

/-!  The historical batch windower (`dynamic_fetch.py:27-82`). -/

/-- The window sequence generated by the `while current_start < end_date`
loop (`dynamic_fetch.py:50-71`) when every fetch succeeds: each window
is `[s, min (s + 31) e)` in days and the next window starts where the
previous one ended.  Dates are day numbers. -/
def historical_windows (s e : Nat) : List (Nat × Nat) :=
  if s < e then (s, min (s + 31) e) :: historical_windows (min (s + 31) e) e
  else []
termination_by e - s
decreasing_by
  omega

/-- The same `while` loop with the failure path of
`dynamic_fetch.py:67-69` embedded faithfully: on a fetch error the
handler logs and `continue`s, and because `current_start = current_end`
(line 71) sits after the `except` block, `continue` skips it, so the
loop re-enters with the same `current_start`.  `fuel` bounds the number
of iterations; `none` means the bound was exhausted, i.e. the loop ran
at least `fuel` iterations without finishing. -/
def fetchHistLoop (fetch : Nat → Nat → Except Unit (List MeetingRecord))
    (e : Nat) : Nat → Nat → List MeetingRecord → Option (List MeetingRecord)
  | 0, _, _ => none
  | fuel + 1, s, acc =>
    if s < e then
      let en := min (s + 31) e
      match fetch s en with
      | .ok batch => fetchHistLoop fetch e fuel en (acc ++ batch)
      | .error _ => fetchHistLoop fetch e fuel s acc
    else some acc

/-- Model of `fetch_historical_data` (`dynamic_fetch.py:27-82`) after a
successful authentication, over an abstract per-window fetcher: run the
batch loop; if no meetings were retrieved, print and return `False`
without touching the store (lines 73-75); otherwise store with
`clear_existing=True` (line 78).  The result pairs the returned boolean
with the final table contents; `none` means the loop did not finish
within `fuel` iterations. -/
def fetch_historical_data (fetch : Nat → Nat → Except Unit (List MeetingRecord))
    (s e : Nat) (db : DB) (fuel : Nat) : Option (Bool × DB) :=
  match fetchHistLoop fetch e fuel s [] with
  | none => none
  | some all_meetings =>
    if all_meetings = [] then some (false, db)
    else
      let r := store_meetings_data all_meetings true noFail db
      some (true, r.db)

/-!  The CLI entry point (`dynamic_fetch.py:234-286`). -/

/-- Result of a Python call: a value or a raised exception. -/
inductive PyResult (α : Type)
  | ok (a : α)
  | exc (msg : String)
deriving Repr

/-- The parsed argparse namespace of `dynamic_fetch.py:247-254`. -/
structure CliArgs where
  daily : Bool
  years : Option Nat
  days : Option Nat
  start_date : Option String
  end_date : Option String
deriving Repr, DecidableEq

/-- Whether the name `DynamicCalendarFetcher` resolves at
`dynamic_fetch.py:257`.  The repository defines no such class or
function anywhere (only module-level functions `fetch_historical_data`,
`fetch_incremental_data`, `store_meetings_data` exist), so the lookup
raises `NameError`. -/
def dynamicCalendarFetcherDefined : Bool := false

/-- The `try` body of `main` (`dynamic_fetch.py:256-273`).  Its first
statement, `fetcher = DynamicCalendarFetcher()`, evaluates the undefined
name before any mode flag is inspected, so every call raises. -/
def mainTryBody (_ : CliArgs) : PyResult Bool :=
  if dynamicCalendarFetcherDefined then
    PyResult.exc "unreachable: class body not present in the repository"
  else
    PyResult.exc "NameError: name DynamicCalendarFetcher is not defined"

/-- Model of `main()` (`dynamic_fetch.py:234-283`) as an exit code: missing
environment variables exit 1 (lines 242-245); otherwise the `try` body
runs, `success` maps to exit 0, `not success` and any exception map to
exit 1 (lines 275-283). -/
def dynamic_fetch_main (env_ok : Bool) (args : CliArgs) : Nat :=
  if !env_ok then 1
  else
    match mainTryBody args with
    | .ok true => 0
    | .ok false => 1
    | .exc _ => 1

/-!  Proof-side projections of the store loop. -/

/-- Effect of one incremental-mode record on the table alone. -/
def incStep (db : DB) (m : MeetingRecord) : DB :=
  if rowIdPresent db m.event_id then updateByEventId db m else db ++ [m]

/-- Table contents after an incremental run with no per-record failure. -/
def incRun (db : DB) (ms : List MeetingRecord) : DB := ms.foldl incStep db

/-- Effect of one historical-mode record on the table alone. -/
def histIns (db : DB) (m : MeetingRecord) : DB :=
  (insertOnConflictDoNothing db m).1

theorem storeLoop_false_db (ms : List MeetingRecord) :
    ∀ (i : Nat) (st : StoreResult),
      (storeLoop false noFail i st ms).db = incRun st.db ms := by
  induction ms with
  | nil => intro i st; rfl
  | cons m rest ih =>
    intro i st
    by_cases h : rowIdPresent st.db m.event_id
    · have step : storeLoop false noFail i st (m :: rest)
          = storeLoop false noFail (i + 1)
            { st with db := updateByEventId st.db m, updated := st.updated + 1 } rest := by
        simp [storeLoop, noFail, h]
      rw [step, ih]
      simp [incRun, incStep, h]
    · have step : storeLoop false noFail i st (m :: rest)
          = storeLoop false noFail (i + 1)
            { st with db := st.db ++ [m], inserted := st.inserted + 1 } rest := by
        simp [storeLoop, noFail, h, insertOnConflictDoNothing]
      rw [step, ih]
      simp [incRun, incStep, h]

theorem storeLoop_true_db (ms : List MeetingRecord) :
    ∀ (i : Nat) (st : StoreResult),
      (storeLoop true noFail i st ms).db = ms.foldl histIns st.db := by
  induction ms with
  | nil => intro i st; rfl
  | cons m rest ih =>
    intro i st
    by_cases h : rowIdPresent st.db m.event_id
    · have step : storeLoop true noFail i st (m :: rest)
          = storeLoop true noFail (i + 1)
            { st with skipped := st.skipped + 1 } rest := by
        simp [storeLoop, noFail, h, insertOnConflictDoNothing]
      rw [step, ih]
      simp [histIns, insertOnConflictDoNothing, h]
    · have step : storeLoop true noFail i st (m :: rest)
          = storeLoop true noFail (i + 1)
            { st with db := st.db ++ [m], inserted := st.inserted + 1 } rest := by
        simp [storeLoop, noFail, h, insertOnConflictDoNothing]
      rw [step, ih]
      simp [histIns, insertOnConflictDoNothing, h]

theorem storeLoop_counts (ms : List MeetingRecord) (clear : Bool)
    (fails : Nat → Bool) :
    ∀ (i : Nat) (st : StoreResult),
      (storeLoop clear fails i st ms).inserted
        + (storeLoop clear fails i st ms).updated
        + (storeLoop clear fails i st ms).skipped
        = st.inserted + st.updated + st.skipped + ms.length := by
  induction ms with
  | nil => intro i st; simp [storeLoop]
  | cons m rest ih =>
    intro i st
    simp only [storeLoop, List.length_cons]
    by_cases hf : fails i
    · simp only [hf, if_true]
      rw [ih]
      dsimp only
      omega
    · simp only [hf, Bool.false_eq_true, if_false]
      by_cases h : (!clear && rowIdPresent st.db m.event_id) = true
      · simp only [h, if_true]
        rw [ih]
        dsimp only
        omega
      · simp only [h, Bool.false_eq_true, if_false, insertOnConflictDoNothing]
        by_cases hp : rowIdPresent st.db m.event_id
        · simp only [hp, if_true]
          rw [ih]
          dsimp only
          omega
        · simp only [hp, Bool.false_eq_true, if_false]
          rw [ih]
          dsimp only
          omega

/-!  Identity and update lemmas. -/

theorem applyUpdate_event_id (r : Row) (m : MeetingRecord) :
    (applyUpdate r m).event_id = r.event_id := rfl

theorem applyUpdate_absorb (r : Row) (m m' : MeetingRecord) :
    applyUpdate (applyUpdate r m') m = applyUpdate r m := rfl

theorem applyUpdate_self (m : MeetingRecord) : applyUpdate m m = m := rfl

theorem rowIdPresent_update (db : DB) (m : MeetingRecord) (eid : String) :
    rowIdPresent (updateByEventId db m) eid = rowIdPresent db eid := by
  induction db with
  | nil => rfl
  | cons r t ih =>
    simp only [updateByEventId, rowIdPresent, List.map_cons, List.any_cons] at *
    rw [ih]
    by_cases h : r.event_id = m.event_id <;> simp [h, applyUpdate_event_id]

theorem rowIdPresent_incStep_mono (db : DB) (m : MeetingRecord) (eid : String)
    (h : rowIdPresent db eid = true) :
    rowIdPresent (incStep db m) eid = true := by
  unfold incStep
  by_cases hp : rowIdPresent db m.event_id
  · rw [if_pos hp, rowIdPresent_update]
    exact h
  · rw [if_neg hp]
    simp only [rowIdPresent, List.any_append] at *
    simp [h]

theorem rowIdPresent_incStep_self (db : DB) (m : MeetingRecord) :
    rowIdPresent (incStep db m) m.event_id = true := by
  unfold incStep
  by_cases hp : rowIdPresent db m.event_id
  · rw [if_pos hp, rowIdPresent_update]
    exact hp
  · rw [if_neg hp]
    simp [rowIdPresent, List.any_append]

theorem rowIdPresent_incRun_mono (ms : List MeetingRecord) :
    ∀ (db : DB) (eid : String), rowIdPresent db eid = true →
      rowIdPresent (incRun db ms) eid = true := by
  induction ms with
  | nil => intro db eid h; exact h
  | cons m t ih =>
    intro db eid h
    simpa [incRun] using ih (incStep db m) eid (rowIdPresent_incStep_mono db m eid h)

theorem rowIdPresent_incRun_mem (ms : List MeetingRecord) :
    ∀ (db : DB) (m : MeetingRecord), m ∈ ms →
      rowIdPresent (incRun db ms) m.event_id = true := by
  induction ms with
  | nil => intro db m h; cases h
  | cons a t ih =>
    intro db m h
    rcases List.mem_cons.mp h with h | h
    · subst h
      have : rowIdPresent (incStep db m) m.event_id = true :=
        rowIdPresent_incStep_self db m
      simpa [incRun] using rowIdPresent_incRun_mono t (incStep db m) m.event_id this
    · simpa [incRun] using ih (incStep db a) m h

/-- Net effect of the incremental loop on a single row: the chain of
matching updates applied left to right. -/
def lastUpd (ms : List MeetingRecord) (r : Row) : Row :=
  ms.foldl (fun r m => if r.event_id = m.event_id then applyUpdate r m else r) r

theorem lastUpd_event_id (ms : List MeetingRecord) :
    ∀ r : Row, (lastUpd ms r).event_id = r.event_id := by
  induction ms with
  | nil => intro r; rfl
  | cons m t ih =>
    intro r
    simp only [lastUpd, List.foldl_cons] at *
    by_cases h : r.event_id = m.event_id <;>
      simp [h, ih, applyUpdate_event_id]

theorem applyUpdate_lastUpd (ms : List MeetingRecord) :
    ∀ (r : Row) (m : MeetingRecord), r.event_id = m.event_id →
      applyUpdate (lastUpd ms r) m = applyUpdate r m := by
  induction ms with
  | nil => intro r m _; rfl
  | cons a t ih =>
    intro r m h
    simp only [lastUpd, List.foldl_cons] at *
    by_cases ha : r.event_id = a.event_id
    · simp only [ha, if_true]
      rw [ih (applyUpdate r a) m (by rw [applyUpdate_event_id]; exact h)]
      exact applyUpdate_absorb r m a
    · simp only [ha, if_false]
      exact ih r m h

theorem incRun_allPresent (ms : List MeetingRecord) :
    ∀ (db : DB), (∀ m ∈ ms, rowIdPresent db m.event_id = true) →
      incRun db ms = db.map (lastUpd ms) := by
  induction ms with
  | nil =>
    intro db _
    have hmap : db.map (lastUpd []) = db.map id := List.map_congr_left (fun r _ => rfl)
    simp [incRun, hmap]
  | cons m t ih =>
    intro db h
    have hm : rowIdPresent db m.event_id = true := h m (List.mem_cons_self m t)
    have ht : ∀ m' ∈ t, rowIdPresent (updateByEventId db m) m'.event_id = true := by
      intro m' hm'
      rw [rowIdPresent_update]
      exact h m' (List.mem_cons_of_mem m hm')
    have : incRun db (m :: t) = incRun (updateByEventId db m) t := by
      simp [incRun, incStep, hm]
    rw [this, ih (updateByEventId db m) ht, updateByEventId, List.map_map]
    rfl

theorem rowIdPresent_eq_false_iff (db : DB) (eid : String) :
    rowIdPresent db eid = false ↔ ∀ r ∈ db, r.event_id ≠ eid := by
  simp [rowIdPresent]

theorem lastUpd_append_single (t : List MeetingRecord) (m : MeetingRecord)
    (r : Row) :
    lastUpd (t ++ [m]) r =
      (if (lastUpd t r).event_id = m.event_id then applyUpdate (lastUpd t r) m
       else lastUpd t r) := by
  simp [lastUpd, List.foldl_append]

theorem incRun_append_single (db : DB) (t : List MeetingRecord)
    (m : MeetingRecord) :
    incRun db (t ++ [m]) = incStep (incRun db t) m := by
  simp [incRun, List.foldl_append]

theorem incRun_rows_final (ms : List MeetingRecord) :
    ∀ (db : DB) (r : Row), r ∈ incRun db ms → lastUpd ms r = r := by
  induction ms using List.reverseRecOn with
  | nil => intro db r _; rfl
  | append_singleton t m ih =>
    intro db r hr
    rw [incRun_append_single] at hr
    rw [lastUpd_append_single]
    by_cases hp : rowIdPresent (incRun db t) m.event_id
    · unfold incStep at hr
      rw [if_pos hp] at hr
      rcases List.mem_map.mp hr with ⟨r0, hr0, hmap⟩
      have hfin : lastUpd t r0 = r0 := ih db r0 hr0
      by_cases hid : r0.event_id = m.event_id
      · rw [if_pos hid] at hmap
        subst hmap
        have hid2 : (applyUpdate r0 m).event_id = m.event_id := by
          rw [applyUpdate_event_id]; exact hid
        have hlid : (lastUpd t (applyUpdate r0 m)).event_id = m.event_id := by
          rw [lastUpd_event_id]; exact hid2
        rw [if_pos hlid, applyUpdate_lastUpd t (applyUpdate r0 m) m hid2,
          applyUpdate_absorb]
      · rw [if_neg hid] at hmap
        subst hmap
        rw [hfin, if_neg hid]
    · unfold incStep at hr
      rw [if_neg hp] at hr
      rcases List.mem_append.mp hr with hr | hr
      · have hfin := ih db r hr
        have hneq : r.event_id ≠ m.event_id :=
          (rowIdPresent_eq_false_iff (incRun db t) m.event_id).mp
            (by simpa using hp) r hr
        rw [hfin, if_neg hneq]
      · have hrm : r = m := by simpa using hr
        subst hrm
        have hlid : (lastUpd t r).event_id = r.event_id := lastUpd_event_id t r
        rw [if_pos hlid, applyUpdate_lastUpd t r r rfl, applyUpdate_self]

theorem storeLoop_allPresent_counts (ms : List MeetingRecord) :
    ∀ (i : Nat) (st : StoreResult),
      (∀ m ∈ ms, rowIdPresent st.db m.event_id = true) →
      (storeLoop false noFail i st ms).inserted = st.inserted ∧
        (storeLoop false noFail i st ms).updated = st.updated + ms.length ∧
        (storeLoop false noFail i st ms).skipped = st.skipped := by
  induction ms with
  | nil => intro i st _; simp [storeLoop]
  | cons m t ih =>
    intro i st h
    have hm : rowIdPresent st.db m.event_id = true := h m (List.mem_cons_self m t)
    have step : storeLoop false noFail i st (m :: t)
        = storeLoop false noFail (i + 1)
          { st with db := updateByEventId st.db m, updated := st.updated + 1 } t := by
      simp [storeLoop, noFail, hm]
    rw [step]
    have ht : ∀ m' ∈ t,
        rowIdPresent (updateByEventId st.db m) m'.event_id = true := by
      intro m' hm'
      rw [rowIdPresent_update]
      exact h m' (List.mem_cons_of_mem m hm')
    rcases ih (i + 1)
        { st with db := updateByEventId st.db m, updated := st.updated + 1 }
        ht with ⟨h1, h2, h3⟩
    refine ⟨?_, ?_, ?_⟩
    · rw [h1]
    · rw [h2]
      show st.updated + 1 + t.length = st.updated + (t.length + 1)
      omega
    · rw [h3]

theorem store_incremental_db (ms : List MeetingRecord) (fdb : DB) :
    (store_meetings_data ms false noFail fdb).db = incRun fdb ms := by
  unfold store_meetings_data
  simp only [Bool.false_eq_true, if_false]
  exact storeLoop_false_db ms 0 _

theorem store_historical_db (ms : List MeetingRecord) (fdb : DB) :
    (store_meetings_data ms true noFail fdb).db = ms.foldl histIns [] := by
  unfold store_meetings_data
  simp only [if_true]
  exact storeLoop_true_db ms 0 _

theorem histRun_fresh (ms : List MeetingRecord) :
    ∀ acc : DB, (ms.map (fun m => m.event_id)).Nodup →
      (∀ m ∈ ms, rowIdPresent acc m.event_id = false) →
      ms.foldl histIns acc = acc ++ ms := by
  induction ms with
  | nil => intro acc _ _; simp
  | cons m t ih =>
    intro acc hnd h
    have hm : rowIdPresent acc m.event_id = false := h m (List.mem_cons_self m t)
    have step : histIns acc m = acc ++ [m] := by
      simp only [histIns, insertOnConflictDoNothing, hm, Bool.false_eq_true,
        if_false]
    simp only [List.foldl_cons, step]
    have hnd' : (t.map (fun m => m.event_id)).Nodup := by
      simpa [List.nodup_cons] using hnd.of_cons
    have hfresh : ∀ m' ∈ t, rowIdPresent (acc ++ [m]) m'.event_id = false := by
      intro m' hm'
      have h1 : rowIdPresent acc m'.event_id = false :=
        h m' (List.mem_cons_of_mem m hm')
      have h2 : m.event_id ≠ m'.event_id := by
        have : m.event_id ∉ t.map (fun m => m.event_id) := by
          simpa [List.nodup_cons] using (List.nodup_cons.mp hnd).1
        intro hcontra
        exact this (hcontra ▸ List.mem_map_of_mem (fun m => m.event_id) hm')
      simp only [rowIdPresent, List.any_append] at *
      simp [h1, h2]
    rw [ih (acc ++ [m]) hnd' hfresh]
    simp

/-!  Window lemmas. -/

theorem historical_windows_bounds (s e : Nat) :
    ∀ w ∈ historical_windows s e, s ≤ w.1 ∧ w.1 < w.2 ∧ w.2 ≤ e := by
  induction s, e using historical_windows.induct with
  | case1 s e h ih =>
    intro w hw
    rw [historical_windows, if_pos h] at hw
    rcases List.mem_cons.mp hw with hw | hw
    · subst hw
      exact ⟨le_refl s, by omega, by omega⟩
    · rcases ih w hw with ⟨h1, h2, h3⟩
      exact ⟨le_trans (by omega) h1, h2, h3⟩
  | case2 s e h =>
    intro w hw
    rw [historical_windows, if_neg h] at hw
    cases hw

theorem historical_windows_cover_mem (s e : Nat) :
    ∀ x : Nat, s ≤ x → x < e →
      ∃ w ∈ historical_windows s e, w.1 ≤ x ∧ x < w.2 := by
  induction s, e using historical_windows.induct with
  | case1 s e h ih =>
    intro x h1 h2
    by_cases hx : x < min (s + 31) e
    · exact ⟨(s, min (s + 31) e), by rw [historical_windows, if_pos h]; simp,
        h1, hx⟩
    · have h1' : min (s + 31) e ≤ x := by omega
      rcases ih x h1' h2 with ⟨w, hw, hwx⟩
      exact ⟨w, by rw [historical_windows, if_pos h]; exact List.mem_cons_of_mem _ hw, hwx⟩
  | case2 s e h =>
    intro x h1 h2
    omega

theorem historical_windows_pairwise (s e : Nat) :
    (historical_windows s e).Pairwise (fun a b => a.2 ≤ b.1) := by
  induction s, e using historical_windows.induct with
  | case1 s e h ih =>
    rw [historical_windows, if_pos h]
    refine List.pairwise_cons.mpr ⟨?_, ih⟩
    intro w hw
    exact (historical_windows_bounds _ _ w hw).1
  | case2 s e h =>
    rw [historical_windows, if_neg h]
    exact List.Pairwise.nil

/-!  Loop lemmas for the historical fetcher. -/

/-- A per-window fetcher whose first window `[0, 31)` succeeds with no
events and whose every later window raises, the scenario of the
claim: one window of the range persistently fails. -/
def failFromDay31 : Nat → Nat → Except Unit (List MeetingRecord) :=
  fun s _ => if s < 31 then Except.ok [] else Except.error ()

theorem fetchHistLoop_stuck :
    ∀ (fuel : Nat) (acc : List MeetingRecord),
      fetchHistLoop failFromDay31 100 fuel 31 acc = none := by
  intro fuel
  induction fuel with
  | zero => intro acc; rfl
  | succ n ih =>
    intro acc
    rw [fetchHistLoop, if_pos (by omega : (31 : Nat) < 100)]
    have hf : failFromDay31 31 (min (31 + 31) 100) = Except.error () := by
      simp [failFromDay31]
    simp only [hf]
    exact ih acc

theorem fetchHistLoop_allEmpty
    (fetch : Nat → Nat → Except Unit (List MeetingRecord)) (e : Nat)
    (hfetch : ∀ a b, fetch a b = Except.ok []) :
    ∀ (fuel s : Nat) (acc : List MeetingRecord), e - s < fuel →
      fetchHistLoop fetch e fuel s acc = some acc := by
  intro fuel
  induction fuel with
  | zero => intro s acc h; omega
  | succ n ih =>
    intro s acc h
    by_cases hs : s < e
    · rw [fetchHistLoop, if_pos hs]
      simp only [hfetch s (min (s + 31) e), List.append_nil]
      exact ih (min (s + 31) e) acc (by omega)
    · rw [fetchHistLoop, if_neg hs]

/-!  Normalization lemmas. -/

/-- When both timestamps are present and parse, `normalizeEvent` always
produces this record — there is no condition on `ed` versus `sd`. -/
theorem normalizeEvent_eq_some (e : RawEvent) (sd ed : Int)
    (hs : e.start_raw = some (TimeStr.ok sd))
    (he : e.end_raw = some (TimeStr.ok ed)) :
    normalizeEvent e = some
      { event_id := e.id
        calendar_id := "primary"
        user_email := e.organizer_email.getD "unknown@domain.com"
        department := "Unknown"
        division := "Unknown"
        subdepartment := "Unknown"
        is_manager := false
        start_time := sd
        end_time := ed
        duration_minutes := compute_duration sd ed
        attendees_count := e.attendees.length
        attendees_accepted := (countStatuses e.attendees).1
        attendees_declined := (countStatuses e.attendees).2.1
        attendees_tentative := (countStatuses e.attendees).2.2.1
        attendees_needs_action := (countStatuses e.attendees).2.2.2.1
        attendees_accepted_emails :=
          String.intercalate "," (countStatuses e.attendees).2.2.2.2
        summary := e.summary.getD "No Title"
        meet_link := meetLink e
        html_link := e.htmlLink.getD ""
        is_one_on_one := e.attendees.length = 2
        has_manager_attendee := false
        unique_departments := 1
        departments_list := "Unknown" } := by
  unfold normalizeEvent
  rw [hs, he]
  rcases hcs : countStatuses e.attendees with ⟨acc, dec, ten, na, ems⟩
  simp [parseIso, hcs]

/-- Inversion: a record produced by `normalizeEvent` has exactly the
field values built at `calendar_service.py:292-317`. -/
theorem normalizeEvent_inv (e : RawEvent) (r : MeetingRecord)
    (h : normalizeEvent e = some r) :
    ∃ sd ed,
      e.start_raw = some (TimeStr.ok sd) ∧ e.end_raw = some (TimeStr.ok ed) ∧
      r.start_time = sd ∧ r.end_time = ed ∧
      r.duration_minutes = compute_duration sd ed ∧
      r.attendees_count = e.attendees.length ∧
      r.attendees_accepted = (countStatuses e.attendees).1 ∧
      r.attendees_declined = (countStatuses e.attendees).2.1 ∧
      r.attendees_tentative = (countStatuses e.attendees).2.2.1 ∧
      r.attendees_needs_action = (countStatuses e.attendees).2.2.2.1 := by
  rcases hs : e.start_raw with _ | st
  · rw [normalizeEvent, hs] at h; cases h
  rcases he : e.end_raw with _ | en
  · rw [normalizeEvent, hs, he] at h; cases h
  cases st with
  | bad => rw [normalizeEvent, hs, he] at h; cases h
  | ok sd =>
    cases en with
    | bad => rw [normalizeEvent, hs, he] at h; cases h
    | ok ed =>
      rw [normalizeEvent_eq_some e sd ed hs he] at h
      refine ⟨sd, ed, rfl, rfl, ?_⟩
      rw [← Option.some_inj.mp h]
      exact ⟨rfl, rfl, rfl, rfl, rfl, rfl, rfl, rfl⟩

/-- A single record inserted into an empty table in incremental mode is
stored. -/
theorem store_single_fresh (r : MeetingRecord) :
    (store_meetings_data [r] false noFail []).db = [r] := by
  rw [store_incremental_db]
  simp [incRun, incStep, rowIdPresent]

/-!  Attendee-count lemmas. -/

theorem countStatuses_sum_le (atts : List Attendee) :
    ∀ acc dec ten na ems, countStatuses atts = (acc, dec, ten, na, ems) →
      acc + dec + ten + na ≤ atts.length := by
  induction atts with
  | nil =>
    intro acc dec ten na ems h
    simp only [countStatuses, Prod.mk.injEq] at h
    omega
  | cons a rest ih =>
    intro acc dec ten na ems h
    rcases hcs : countStatuses rest with ⟨acc0, dec0, ten0, na0, ems0⟩
    have hle := ih acc0 dec0 ten0 na0 ems0 hcs
    simp only [countStatuses, hcs] at h
    simp only [List.length_cons]
    split_ifs at h <;>
      (simp only [Prod.mk.injEq] at h
       obtain ⟨h1, h2, h3, h4, _⟩ := h
       omega)

theorem countStatuses_sum_eq (atts : List Attendee)
    (hall : ∀ a ∈ atts, a.responseStatus.getD "needsAction" ∈
      (["accepted", "declined", "tentative", "needsAction"] : List String)) :
    ∀ acc dec ten na ems, countStatuses atts = (acc, dec, ten, na, ems) →
      acc + dec + ten + na = atts.length := by
  induction atts with
  | nil =>
    intro acc dec ten na ems h
    simp only [countStatuses, Prod.mk.injEq] at h
    obtain ⟨h1, h2, h3, h4, _⟩ := h
    simp [← h1, ← h2, ← h3, ← h4]
  | cons a rest ih =>
    intro acc dec ten na ems h
    have hall' : ∀ a' ∈ rest, a'.responseStatus.getD "needsAction" ∈
        (["accepted", "declined", "tentative", "needsAction"] : List String) :=
      fun a' ha' => hall a' (List.mem_cons_of_mem a ha')
    have ha := hall a (List.mem_cons_self a rest)
    rcases hcs : countStatuses rest with ⟨acc0, dec0, ten0, na0, ems0⟩
    have heq := ih hall' acc0 dec0 ten0 na0 ems0 hcs
    simp only [countStatuses, hcs] at h
    simp only [List.length_cons]
    split_ifs at h with h1 h2 h3 h4
    · obtain ⟨g1, g2, g3, g4, _⟩ := Prod.mk.injEq .. ▸ h
      omega
    · obtain ⟨g1, g2, g3, g4, _⟩ := Prod.mk.injEq .. ▸ h
      omega
    · obtain ⟨g1, g2, g3, g4, _⟩ := Prod.mk.injEq .. ▸ h
      omega
    · obtain ⟨g1, g2, g3, g4, _⟩ := Prod.mk.injEq .. ▸ h
      omega
    · exfalso
      simp only [List.mem_cons, List.mem_singleton] at ha
      rcases ha with ha | ha | ha | ha
      · exact h1 ha
      · exact h2 ha
      · exact h3 ha
      · rcases ha with ha | ha
        · exact h4 ha
        · cases ha

/-!  Concrete fixtures for witnesses and counterexamples. -/

/-- A concrete row fixture. -/
def mkRow (eid : String) (sd ed : Int) : MeetingRecord :=
  { event_id := eid
    calendar_id := "primary"
    user_email := "user@x.com"
    department := "Unknown"
    division := "Unknown"
    subdepartment := "Unknown"
    is_manager := false
    start_time := sd
    end_time := ed
    duration_minutes := compute_duration sd ed
    attendees_count := 0
    attendees_accepted := 0
    attendees_declined := 0
    attendees_tentative := 0
    attendees_needs_action := 0
    attendees_accepted_emails := ""
    summary := "Sync"
    meet_link := ""
    html_link := ""
    is_one_on_one := false
    has_manager_attendee := false
    unique_departments := 1
    departments_list := "Unknown" }

/-- A raw event lasting 90 seconds, i.e. one and a half minutes. -/
def evHalfMinute : RawEvent :=
  { id := "evt-half"
    summary := some "Sync"
    start_raw := some (TimeStr.ok 0)
    end_raw := some (TimeStr.ok 90)
    organizer_email := some "o@x.com"
    attendees := []
    hangoutLink := none
    conference_entry_points := []
    htmlLink := none }

/-- A raw event whose end timestamp equals its start timestamp. -/
def evEqualTimes : RawEvent :=
  { id := "evt-eq"
    summary := some "Zero"
    start_raw := some (TimeStr.ok 100)
    end_raw := some (TimeStr.ok 100)
    organizer_email := some "o@x.com"
    attendees := []
    hangoutLink := none
    conference_entry_points := []
    htmlLink := none }

/-- A raw event with one attendee whose `responseStatus` is present but
outside the four recognized literals. -/
def evUnrecognized : RawEvent :=
  { id := "evt-unrec"
    summary := some "Odd"
    start_raw := some (TimeStr.ok 0)
    end_raw := some (TimeStr.ok 3600)
    organizer_email := some "o@x.com"
    attendees := [{ email := some "a@x.com", responseStatus := some "organizer" }]
    hangoutLink := none
    conference_entry_points := []
    htmlLink := none }

/-- A raw event whose attendees all carry a recognized or missing
`responseStatus`. -/
def evRecognized : RawEvent :=
  { id := "evt-rec"
    summary := some "Team"
    start_raw := some (TimeStr.ok 0)
    end_raw := some (TimeStr.ok 3600)
    organizer_email := some "o@x.com"
    attendees := [{ email := some "a@x.com", responseStatus := some "accepted" },
                  { email := some "b@x.com", responseStatus := none }]
    hangoutLink := none
    conference_entry_points := []
    htmlLink := none }

/-- The record normalized from `evHalfMinute`. -/
def recHalf : MeetingRecord := (normalizeEvent evHalfMinute).getD (mkRow "x" 0 0)

/-- The record normalized from `evRecognized`. -/
def recRecognized : MeetingRecord :=
  (normalizeEvent evRecognized).getD (mkRow "x" 0 0)

/-!  Claim theorems. -/

/-- Claim C1: running `store_meetings_data` in incremental mode
(`clear_existing = False`) a second time over the same records leaves
the table identical to its state after the first run; every record of
the second run is counted as updated, none as inserted or skipped, so
no duplicate rows appear and the row count is unchanged. -/
theorem incremental_store_idempotent (db : DB) (ms : List MeetingRecord) :
    (store_meetings_data ms false noFail
        (store_meetings_data ms false noFail db).db).db
      = (store_meetings_data ms false noFail db).db ∧
    (store_meetings_data ms false noFail
        (store_meetings_data ms false noFail db).db).inserted = 0 ∧
    (store_meetings_data ms false noFail
        (store_meetings_data ms false noFail db).db).updated = ms.length ∧
    (store_meetings_data ms false noFail
        (store_meetings_data ms false noFail db).db).skipped = 0 := by
  have hD1 : (store_meetings_data ms false noFail db).db = incRun db ms :=
    store_incremental_db ms db
  have hpres : ∀ m ∈ ms,
      rowIdPresent (store_meetings_data ms false noFail db).db m.event_id
        = true := by
    intro m hm
    rw [hD1]
    exact rowIdPresent_incRun_mem ms db m hm
  have hloop : store_meetings_data ms false noFail
        (store_meetings_data ms false noFail db).db
      = storeLoop false noFail 0
          { db := (store_meetings_data ms false noFail db).db,
            inserted := 0, updated := 0, skipped := 0 } ms := by
    unfold store_meetings_data
    simp only [Bool.false_eq_true, if_false]
  have hcounts := storeLoop_allPresent_counts ms 0
    { db := (store_meetings_data ms false noFail db).db,
      inserted := 0, updated := 0, skipped := 0 } hpres
  refine ⟨?_, ?_, ?_, ?_⟩
  · rw [store_incremental_db, incRun_allPresent ms _ hpres]
    have hfinal : ∀ r ∈ (store_meetings_data ms false noFail db).db,
        lastUpd ms r = r := by
      intro r hr
      rw [hD1] at hr
      exact incRun_rows_final ms db r hr
    rw [List.map_congr_left hfinal]
    exact List.map_id' _
  · rw [hloop]
    exact hcounts.1
  · rw [hloop]
    simpa using hcounts.2.1
  · rw [hloop]
    exact hcounts.2.2

/-- Claim C2: `store_meetings_data` in historical mode
(`clear_existing = True`) first deletes every existing row and then
inserts the given records, so for records with pairwise-distinct
`event_id` values the table afterwards is exactly the given record list,
whatever rows were present before. -/
theorem historical_store_full_replace (db : DB) (ms : List MeetingRecord)
    (h : (ms.map (fun m => m.event_id)).Nodup) :
    (store_meetings_data ms true noFail db).db = ms := by
  rw [store_historical_db]
  have := histRun_fresh ms [] h (fun m _ => rfl)
  simpa using this

/-- Witness for claim C2 at a concrete table and record list. -/
theorem historical_store_full_replace_witness :
    (([mkRow "a" 0 3600, mkRow "b" 0 7200].map (fun m => m.event_id)).Nodup) ∧
      (store_meetings_data [mkRow "a" 0 3600, mkRow "b" 0 7200] true noFail
          [mkRow "old" 0 1800]).db
        = [mkRow "a" 0 3600, mkRow "b" 0 7200] :=
  ⟨by decide,
    historical_store_full_replace [mkRow "old" 0 1800]
      [mkRow "a" 0 3600, mkRow "b" 0 7200] (by decide)⟩

/-- Claim C9: in `store_meetings_data` every record contributes to
exactly one of the three counters, whatever mode is selected and
whichever records raise per-record exceptions, so at the end of the
batch `inserted + updated + skipped` equals the number of input
records. -/
theorem store_counter_conservation (ms : List MeetingRecord)
    (clear_existing : Bool) (fails : Nat → Bool) (db : DB) :
    (store_meetings_data ms clear_existing fails db).inserted
        + (store_meetings_data ms clear_existing fails db).updated
        + (store_meetings_data ms clear_existing fails db).skipped
      = ms.length := by
  unfold store_meetings_data
  rw [storeLoop_counts]
  simp

/-- Claim C8: the fetch CLI can never exit with code 0 — its `try` body
constructs `DynamicCalendarFetcher`, a name defined nowhere in the
repository, so with all environment variables set and any combination of
mode flags the process raises `NameError` and exits 1, contradicting the
documented `exit code 0 on success`. -/
theorem cli_always_exits_failure (args : CliArgs) :
    dynamic_fetch_main true args = 1 := rfl

/-- Claim C3 (refuted, code bug): in the historical batch loop the
`except` handler's `continue` skips the `current_start = current_end`
statement, so a persistently failing window is retried forever with the
same `current_start` rather than skipped.  With the window `[31, 62)`
raising on every attempt, the loop never terminates no matter how many
iterations it is allowed, and in particular the windows after the
failing one are never fetched. -/
theorem failed_window_blocks_loop :
    ∀ fuel : Nat, fetchHistLoop failFromDay31 100 fuel 0 [] = none := by
  intro fuel
  cases fuel with
  | zero => rfl
  | succ n =>
    rw [fetchHistLoop, if_pos (by omega : (0 : Nat) < 100)]
    have hf : failFromDay31 0 (min (0 + 31) 100) = Except.ok [] := by
      simp [failFromDay31]
    simp only [hf, List.append_nil]
    rw [(by omega : min (0 + 31) 100 = 31)]
    exact fetchHistLoop_stuck n []

/-- Claim C4: for every start day strictly before the end day, the
windows of the historical batch loop — each `[s, min (s + 31) e)` with
the next starting where the previous ended — exactly partition `[S, E)`:
every day of the range lies in some window, nothing outside the range is
covered, and distinct windows meet at most at their shared boundary. -/
theorem historical_windows_partition (S E : Nat) (_ : S < E) :
    (∀ x : Nat, (S ≤ x ∧ x < E) ↔
        ∃ w ∈ historical_windows S E, w.1 ≤ x ∧ x < w.2) ∧
      (historical_windows S E).Pairwise (fun a b => a.2 ≤ b.1) := by
  refine ⟨fun x => ⟨fun hx => historical_windows_cover_mem S E x hx.1 hx.2, ?_⟩,
    historical_windows_pairwise S E⟩
  rintro ⟨w, hw, hx1, hx2⟩
  rcases historical_windows_bounds S E w hw with ⟨b1, _, b3⟩
  exact ⟨le_trans b1 hx1, lt_of_lt_of_le hx2 b3⟩

/-- Witness for claim C4 on the concrete range `[0, 100)`. -/
theorem historical_windows_partition_witness :
    (0 : Nat) < 100 ∧
      ((∀ x : Nat, (0 ≤ x ∧ x < 100) ↔
          ∃ w ∈ historical_windows 0 100, w.1 ≤ x ∧ x < w.2) ∧
        (historical_windows 0 100).Pairwise (fun a b => a.2 ≤ b.1)) :=
  ⟨by decide, historical_windows_partition 0 100 (by decide)⟩

/-- Claim C10: a historical run whose every window fetch succeeds but
returns no events makes `fetch_historical_data` return `False` without
ever calling `store_meetings_data`, so the `DELETE FROM meetings` step
never runs and the table is left exactly as it was. -/
theorem empty_historical_fetch_frame
    (fetch : Nat → Nat → Except Unit (List MeetingRecord))
    (s e fuel : Nat) (db : DB)
    (hfetch : ∀ a b, fetch a b = Except.ok []) (hfuel : e - s < fuel) :
    fetch_historical_data fetch s e db fuel = some (false, db) := by
  unfold fetch_historical_data
  rw [fetchHistLoop_allEmpty fetch e hfetch fuel s [] hfuel]
  rfl

/-- Witness for claim C10: an all-empty fetcher over `[0, 100)` with a
non-empty initial table. -/
theorem empty_historical_fetch_frame_witness :
    fetch_historical_data (fun _ _ => Except.ok []) 0 100 [mkRow "keep" 0 3600]
        101
      = some (false, [mkRow "keep" 0 3600]) :=
  empty_historical_fetch_frame (fun _ _ => Except.ok []) 0 100 101
    [mkRow "keep" 0 3600] (fun _ _ => rfl) (by decide)

/-- Claim C5 counterexample: for a 90-second event the code stores
`int(1.5) = 1` while the spec's `round` gives `2`, so `duration_minutes`
does not equal the rounded elapsed minutes. -/
theorem duration_round_counterexample :
    (fetch_calendar_data [evHalfMinute]).map (fun r => r.duration_minutes)
        = [1] ∧
      duration_minutes_specRound 0 90 = 2 ∧
      ¬ (∀ r ∈ fetch_calendar_data [evHalfMinute],
          r.duration_minutes
            = duration_minutes_specRound r.start_time r.end_time) := by
  refine ⟨by decide, by norm_num [duration_minutes_specRound, round_eq], ?_⟩
  intro hall
  have hmem : recHalf ∈ fetch_calendar_data [evHalfMinute] := by decide
  have h1 := hall recHalf hmem
  have h2 : recHalf.duration_minutes = 1 := by decide
  have h3 : recHalf.start_time = 0 := by decide
  have h4 : recHalf.end_time = 90 := by decide
  rw [h2, h3, h4] at h1
  have h5 : duration_minutes_specRound 0 90 = 2 := by
    norm_num [duration_minutes_specRound, round_eq]
  rw [h5] at h1
  exact absurd h1 (by decide)

/-- Claim C5 as amended: every record produced by `fetch_calendar_data`
has `duration_minutes` recomputed from its own parsed `start_time` and
`end_time` as the elapsed minutes truncated toward zero (Python `int()`),
not rounded to the nearest minute. -/
theorem duration_truncated_recomputed (evs : List RawEvent)
    (r : MeetingRecord) (hr : r ∈ fetch_calendar_data evs) :
    r.duration_minutes = compute_duration r.start_time r.end_time := by
  rcases List.mem_filterMap.mp hr with ⟨e, _, hne⟩
  rcases normalizeEvent_inv e r hne with ⟨sd, ed, _, _, hst, hen, hdur, _⟩
  rw [hst, hen, hdur]

/-- Witness for claim C5's amended statement on the 90-second event. -/
theorem duration_truncated_recomputed_witness :
    recHalf.duration_minutes
      = compute_duration recHalf.start_time recHalf.end_time :=
  duration_truncated_recomputed [evHalfMinute] recHalf (by decide)

/-- Claim C6 counterexample: an event whose end timestamp equals its
start timestamp is normalized and stored, so a stored row need not
satisfy `end_time > start_time`. -/
theorem end_before_start_stored_counterexample :
    ¬ (∀ r ∈ (store_meetings_data (fetch_calendar_data [evEqualTimes]) false
          noFail []).db, r.start_time < r.end_time) := by
  decide

/-- Claim C6 as amended: the pipeline rejects records with a missing or
unparseable timestamp, but it performs no `end_time > start_time` check:
an event with parseable timestamps and `end_time ≤ start_time` is
normalized into a record and stored by `store_meetings_data`. -/
theorem end_not_after_start_accepted (e : RawEvent) (sd ed : Int)
    (hs : e.start_raw = some (TimeStr.ok sd))
    (he : e.end_raw = some (TimeStr.ok ed)) (_ : ed ≤ sd) :
    ∃ r, normalizeEvent e = some r ∧ r.start_time = sd ∧ r.end_time = ed ∧
      (store_meetings_data [r] false noFail []).db = [r] :=
  ⟨_, normalizeEvent_eq_some e sd ed hs he, rfl, rfl, store_single_fresh _⟩

/-- Witness for claim C6's amended statement on the equal-times event. -/
theorem end_not_after_start_accepted_witness :
    ∃ r, normalizeEvent evEqualTimes = some r ∧ r.start_time = 100 ∧
      r.end_time = 100 ∧ (store_meetings_data [r] false noFail []).db = [r] :=
  end_not_after_start_accepted evEqualTimes 100 100 rfl rfl (by decide)

/-- Claim C7 counterexample: an attendee whose `responseStatus` is
present but unrecognized (here `"organizer"`) is counted in none of the
four buckets — in particular not as `needsAction` — so the four counts
sum to 0 while `attendees_count` is 1. -/
theorem unrecognized_status_uncounted :
    (fetch_calendar_data [evUnrecognized]).map
        (fun r => (r.attendees_count, r.attendees_needs_action,
          r.attendees_accepted + r.attendees_declined + r.attendees_tentative
            + r.attendees_needs_action)) = [(1, 0, 0)] ∧
      ¬ (∀ r ∈ fetch_calendar_data [evUnrecognized],
          r.attendees_accepted + r.attendees_declined + r.attendees_tentative
            + r.attendees_needs_action = r.attendees_count) :=
  ⟨by decide, by decide⟩

/-- Claim C7 as amended: a missing `responseStatus` defaults to
`needsAction`, but a present unrecognized value is counted in none of
the four buckets, so the four counts sum to at most `attendees_count`,
with equality whenever every attendee's status is missing or one of the
four recognized literals. -/
theorem attendee_counts_amended (e : RawEvent) (r : MeetingRecord)
    (hr : normalizeEvent e = some r) :
    (r.attendees_accepted + r.attendees_declined + r.attendees_tentative
        + r.attendees_needs_action ≤ r.attendees_count) ∧
      ((∀ a ∈ e.attendees, a.responseStatus.getD "needsAction" ∈
          (["accepted", "declined", "tentative", "needsAction"] : List String)) →
        r.attendees_accepted + r.attendees_declined + r.attendees_tentative
          + r.attendees_needs_action = r.attendees_count) := by
  rcases normalizeEvent_inv e r hr with
    ⟨sd, ed, _, _, _, _, _, hcnt, hacc, hdec, hten, hna⟩
  rcases hcs : countStatuses e.attendees with ⟨acc, dec, ten, na, ems⟩
  rw [hacc, hdec, hten, hna, hcnt, hcs]
  constructor
  · simpa using countStatuses_sum_le e.attendees acc dec ten na ems hcs
  · intro hall
    simpa using countStatuses_sum_eq e.attendees hall acc dec ten na ems hcs

/-- Witness for claim C7's amended statement on an event whose attendee
statuses are `"accepted"` and missing. -/
theorem attendee_counts_amended_witness :
    (recRecognized.attendees_accepted + recRecognized.attendees_declined
        + recRecognized.attendees_tentative
        + recRecognized.attendees_needs_action
        ≤ recRecognized.attendees_count) ∧
      ((∀ a ∈ evRecognized.attendees, a.responseStatus.getD "needsAction" ∈
          (["accepted", "declined", "tentative", "needsAction"] : List String)) →
        recRecognized.attendees_accepted + recRecognized.attendees_declined
          + recRecognized.attendees_tentative
          + recRecognized.attendees_needs_action
          = recRecognized.attendees_count) :=
  attendee_counts_amended evRecognized recRecognized (by decide)
